import Mathlib

/-!
Verification of the agentsdk core against its natural-language specification.

The Go sources are embedded shallowly: each Go function relevant to a claim is
translated into an executable Lean definition over explicit state.  Effectful
collaborators (the model provider, the real process spawn, the JSON library,
engine construction) appear as explicit parameters so that the control flow of
the translated functions stays exactly that of the source.
-/

namespace AgentSDK

/-! ## Permission manager (pkg/core/permission.go) -/

/-- `PermissionDecision` from permission.go: allow / deny / ask. -/
inductive PermissionDecision
  | allow
  | deny
  | ask
deriving DecidableEq, Repr

/-- `types.PermissionMode`.  The Go type is a string; the `check` switch treats
the three named modes specially and anything else through its default branch,
so unknown raw strings are kept in a fourth constructor. -/
inductive PermissionMode
  | modeAllow
  | modeApproval
  | modeAuto
  | modeOther (raw : String)
deriving DecidableEq, Repr

/-- `ToolPermissionRule` from permission.go. -/
structure ToolPermissionRule where
  toolName : String
  decision : PermissionDecision
  reason : String
deriving DecidableEq, Repr

/-- The policy state of `PermissionManager`: default mode, per-tool rule map,
and the three membership lists (Go `map[string]bool` sets, modelled as lists
queried through `contains`). -/
structure PermissionManager where
  defaultMode : PermissionMode
  rules : List (String × ToolPermissionRule)
  allowList : List String
  denyList : List String
  askList : List String
deriving Repr

/-- `PermissionManager.Check` (permission.go lines 154-238), with the stats
counters dropped: deny list first, then allow list, then ask list, then the
per-tool rule map, then the default mode. -/
def PermissionManager.check (pm : PermissionManager) (toolName : String) :
    PermissionDecision × String :=
  if pm.denyList.contains toolName then
    (.deny, "tool is in deny list")
  else if pm.allowList.contains toolName then
    (.allow, "tool is in allow list")
  else if pm.askList.contains toolName then
    (.ask, "tool requires approval")
  else
    match pm.rules.lookup toolName with
    | some rule => (rule.decision, rule.reason)
    | none =>
      match pm.defaultMode with
      | .modeAllow => (.allow, "default mode: allow")
      | .modeApproval => (.ask, "default mode: approval")
      | .modeAuto => (.allow, "default mode: auto (allow)")
      | .modeOther _ => (.allow, "default: allow")

/-- Set insertion for a Go `map[string]bool` used as a set (`m[name] = true`). -/
def setInsert (l : List String) (x : String) : List String :=
  if l.contains x then l else x :: l

/-- Set removal for a Go `map[string]bool` used as a set (`delete(m, name)`). -/
def setRemove (l : List String) (x : String) : List String :=
  l.filter (fun y => y ≠ x)

/-- The three membership lists of a manager, isolated for the list-maintenance
operations `AddToAllowList` / `AddToDenyList` / `AddToAskList` /
`RemoveFromLists` (permission.go lines 341-374). -/
structure PermLists where
  allowList : List String
  denyList : List String
  askList : List String
deriving Repr

/-- The lists of a manager constructed with empty option lists. -/
def PermLists.empty : PermLists := ⟨[], [], []⟩

/-- One list-maintenance operation on a permission manager. -/
inductive PermListOp
  | addAllow (toolName : String)
  | addDeny (toolName : String)
  | addAsk (toolName : String)
  | removeLists (toolName : String)
deriving DecidableEq, Repr

/-- Effect of each list-maintenance operation, exactly as in permission.go:
every `AddTo*` inserts into its own list and deletes the name from the other
two; `RemoveFromLists` deletes from all three. -/
def PermLists.applyOp (pl : PermLists) : PermListOp → PermLists
  | .addAllow n =>
    { allowList := setInsert pl.allowList n
      denyList := setRemove pl.denyList n
      askList := setRemove pl.askList n }
  | .addDeny n =>
    { allowList := setRemove pl.allowList n
      denyList := setInsert pl.denyList n
      askList := setRemove pl.askList n }
  | .addAsk n =>
    { allowList := setRemove pl.allowList n
      denyList := setRemove pl.denyList n
      askList := setInsert pl.askList n }
  | .removeLists n =>
    { allowList := setRemove pl.allowList n
      denyList := setRemove pl.denyList n
      askList := setRemove pl.askList n }

/-- A sequence of list-maintenance operations applied in order. -/
def PermLists.applyOps (pl : PermLists) (ops : List PermListOp) : PermLists :=
  ops.foldl PermLists.applyOp pl

/-- A tool name is in at most one of the three lists. -/
def PermLists.AtMostOne (pl : PermLists) (n : String) : Prop :=
  ¬(n ∈ pl.allowList ∧ n ∈ pl.denyList) ∧
  ¬(n ∈ pl.allowList ∧ n ∈ pl.askList) ∧
  ¬(n ∈ pl.denyList ∧ n ∈ pl.askList)

/-! ## Pool (pkg/core/pool.go) -/

/-- The pool state: the id-to-engine map (assoc list) and the capacity bound.
`maxAgents` is a Go `int`, hence `Int`. -/
structure PoolModel (A : Type) where
  agents : List (String × A)
  maxAgents : Int
deriving Repr

/-- `NewPool` (pool.go lines 28-39): a zero `MaxAgents` option defaults to 50. -/
def newPool (A : Type) (maxAgentsOpt : Int) : PoolModel A :=
  { agents := []
    maxAgents := if maxAgentsOpt = 0 then 50 else maxAgentsOpt }

/-- `Pool.Create` (pool.go lines 42-65).  Engine construction (`agent.Create`)
is effectful, so its outcome is passed in as `mkAgent`; the function returns
the call result together with the post-state of the pool, which equals the
input pool whenever an error is returned. -/
def PoolModel.create {A : Type} (p : PoolModel A) (agentId : String)
    (mkAgent : Except String A) : Except String A × PoolModel A :=
  if (p.agents.lookup agentId).isSome then
    (.error ("agent already exists: " ++ agentId), p)
  else if (p.agents.length : Int) ≥ p.maxAgents then
    (.error "pool is full", p)
  else
    match mkAgent with
    | .error e => (.error ("create agent: " ++ e), p)
    | .ok ag => (.ok ag, { p with agents := (agentId, ag) :: p.agents })

/-- Whether an `Except` result is an error. -/
def isErrorResult {A : Type} : Except String A → Bool
  | .error _ => true
  | .ok _ => false

/-! ## Room (pkg/core/room.go) -/

/-- RE2 word character `\w`, i.e. `[0-9A-Za-z_]` (ASCII). -/
def isWordChar (c : Char) : Bool :=
  c.isAlpha || c.isDigit || c = '_'

/-- All submatches of the regex `@(\w+)` over the text, left to right and
non-overlapping, as produced by `FindAllStringSubmatch` inside
`Room.extractMentions`: at each `@` the longest run of word characters is
captured (if nonempty) and scanning resumes after it. -/
def findMentionsAux : List Char → List String
  | [] => []
  | c :: rest =>
    if c = '@' then
      let w := rest.takeWhile isWordChar
      if w.isEmpty then findMentionsAux rest
      else String.mk w :: findMentionsAux (rest.dropWhile isWordChar)
    else findMentionsAux rest
termination_by l => l.length
decreasing_by
  all_goals simp only [List.length_cons]
  all_goals first
    | omega
    | (have h := (List.dropWhile_sublist (l := rest) isWordChar).length_le
       omega)

/-- The de-duplication loop of `Room.extractMentions` (room.go lines 296-313):
keep the first occurrence of each mention, tracking a `seen` set. -/
def dedupMentionsAux (seen : List String) : List String → List String
  | [] => []
  | m :: rest =>
    if seen.contains m then dedupMentionsAux seen rest
    else m :: dedupMentionsAux (m :: seen) rest

/-- `Room.extractMentions`: regex matches of `@(\w+)`, duplicates collapsed
preserving first-occurrence order. -/
def extractMentions (text : String) : List String :=
  dedupMentionsAux [] (findMentionsAux text.data)

/-- The name-to-agent-id membership map of a `Room`. -/
structure RoomModel where
  members : List (String × String)
deriving Repr

/-- The `[from:<sender>] ` prefix applied to text delivered through another
agent's `Send` (room.go line 145). -/
def formatRoomText (sender text : String) : String :=
  "[from:" ++ sender ++ "] " ++ text

/-- `Room.Say` (room.go lines 87-157).  `poolHas` stands for `pool.Get`
existence; the result is the list of (member name, delivered text) pairs
handed to `agent.Send`.  Mentioned targets are collected in mention order;
broadcast targets in membership order (the Go map iteration order is
unspecified, and the claims speak only about the delivery set). -/
def RoomModel.say (r : RoomModel) (poolHas : String → Bool)
    (sender text : String) : Except String (List (String × String)) :=
  if (r.members.lookup sender).isSome = false then
    .error ("sender is not a member: " ++ sender)
  else
    let mentions := extractMentions text
    let targets : List (String × String) :=
      if mentions.isEmpty = false then
        mentions.filterMap (fun m => (r.members.lookup m).map (fun aid => (m, aid)))
      else
        r.members.filter (fun p => p.1 ≠ sender)
    .ok (targets.filterMap (fun p =>
      if poolHas p.2 then some (p.1, formatRoomText sender text) else none))

/-! ## Scheduler (pkg/core/scheduler.go) -/

/-- `StepTask` (scheduler.go lines 41-46), keeping the fields the step-trigger
logic reads and writes.  Go `int` fields become `Int`. -/
structure StepTask where
  every : Int
  lastTriggered : Int
deriving DecidableEq, Repr

/-- `Scheduler.EverySteps` (scheduler.go lines 103-121): rejects a
non-positive interval, otherwise registers a task with `LastTriggered = 0`. -/
def everySteps (every : Int) : Except String StepTask :=
  if every ≤ 0 then .error "every must be positive"
  else .ok { every := every, lastTriggered := 0 }

/-- The per-task body of `Scheduler.NotifyStep` (scheduler.go lines 180-202):
the task fires when `stepCount - LastTriggered >= Every`, in which case
`LastTriggered` is set to `stepCount`.  The returned flag records whether the
callback was dispatched. -/
def stepTaskNotify (t : StepTask) (stepCount : Int) : StepTask × Bool :=
  if stepCount - t.lastTriggered ≥ t.every then
    ({ t with lastTriggered := stepCount }, true)
  else (t, false)

/-- Folding `NotifyStep` deliveries over a task while counting callback
dispatches. -/
def notifyFold (acc : StepTask × Nat) (k : Int) : StepTask × Nat :=
  let r := stepTaskNotify acc.1 k
  (r.1, acc.2 + (if r.2 then 1 else 0))

/-- The sequential step numbers 1, 2, …, N delivered to `NotifyStep`. -/
def stepsUpTo (N : Nat) : List Int :=
  (List.range N).map (fun i => (i : Int) + 1)

/-- A fresh `EverySteps` task after the sequential deliveries
`NotifyStep(1..N)`, together with its total number of callback dispatches. -/
def runEverySteps (n : Int) (N : Nat) : StepTask × Nat :=
  (stepsUpTo N).foldl notifyFold ({ every := n, lastTriggered := 0 }, 0)

/-- Listener dispatches of one `NotifyStep` call (scheduler.go lines 168-177):
every registered listener still active is invoked once, cancelled slots
(`nil` entries) are skipped. -/
def listenerTick (listeners : List Bool) : List Nat :=
  listeners.map (fun active => if active then 1 else 0)

/-- Per-listener invocation counts after the sequential deliveries
`NotifyStep(1..N)`. -/
def listenerInvocationsAfter (listeners : List Bool) (N : Nat) : List Nat :=
  (stepsUpTo N).foldl
    (fun acc _ => List.zipWith (· + ·) acc (listenerTick listeners))
    (listeners.map (fun _ => 0))

/-! ## Sandbox exec and bash_run (pkg/sandbox/local.go, builtin bash tool)

The thirteen `dangerousPatterns` regexes of local.go use only literal
characters, the classes `\s` and `.`, `+`/`*` over a class, alternation, and
the `$` anchor, so they are embedded as abstract syntax trees over exactly
those constructs with an executable matcher. -/

/-- RE2 `\s`: `[\t\n\f\r ]`. -/
def isSpaceRE (c : Char) : Bool :=
  c = '\t' || c = '\n' || c = '\x0c' || c = '\r' || c = ' '

/-- RE2 `.` with default flags: any character except newline. -/
def isDotChar (c : Char) : Bool := c ≠ '\n'

/-- Regex ASTs covering the constructs used by `dangerousPatterns`. -/
inductive Rx
  | chr (p : Char → Bool)
  | eps
  | eos
  | cat (a b : Rx)
  | alt (a b : Rx)
  | starC (p : Char → Bool)

/-- Suffixes reachable by consuming a possibly empty run of class characters
(the star `p*` over a character class). -/
def starSuffixes (p : Char → Bool) : List Char → List (List Char)
  | [] => [[]]
  | c :: rest => (c :: rest) :: (if p c then starSuffixes p rest else [])

/-- All suffixes remaining after matching `r` against some prefix of the
input. -/
def rxSuffixes : Rx → List Char → List (List Char)
  | .chr _, [] => []
  | .chr p, c :: rest => if p c then [rest] else []
  | .eps, s => [s]
  | .eos, [] => [[]]
  | .eos, _ :: _ => []
  | .cat a b, s => (rxSuffixes a s).flatMap (fun s2 => rxSuffixes b s2)
  | .alt a b, s => rxSuffixes a s ++ rxSuffixes b s
  | .starC p, s => starSuffixes p s

/-- Whether a match of `r` starts at the head of `s`. -/
def rxMatchHere (r : Rx) (s : List Char) : Bool :=
  !(rxSuffixes r s).isEmpty

/-- Unanchored search: Go `Regexp.MatchString` succeeds iff a match starts at
some position of the text. -/
def rxSearch (r : Rx) : List Char → Bool
  | [] => rxMatchHere r []
  | c :: rest => rxMatchHere r (c :: rest) || rxSearch r rest

/-- `regexp.MatchString` on a Lean string. -/
def rxMatchString (r : Rx) (s : String) : Bool := rxSearch r s.data

/-- A literal string as a regex. -/
def rxLit (s : String) : Rx :=
  s.data.foldr (fun c acc => Rx.cat (.chr (fun d => d = c)) acc) .eps

/-- `\s+` -/
def rxSpaces1 : Rx := .cat (.chr isSpaceRE) (.starC isSpaceRE)

/-- `\s*` -/
def rxSpaces0 : Rx := .starC isSpaceRE

/-- `.*` -/
def rxDotStar : Rx := .starC isDotChar

/-- Pattern 1 of local.go: whole-filesystem removal. -/
def patRmRf : Rx :=
  .cat (rxLit "rm") (.cat rxSpaces1 (.cat (rxLit "-rf")
    (.cat rxSpaces1 (.cat (rxLit "/") (.alt .eos (.chr isSpaceRE))))))

/-- Pattern 2: privilege escalation. -/
def patSudo : Rx := .cat (rxLit "sudo") rxSpaces1

/-- Pattern 3. -/
def patShutdown : Rx := rxLit "shutdown"

/-- Pattern 4. -/
def patReboot : Rx := rxLit "reboot"

/-- Pattern 5: filesystem formatting. -/
def patMkfs : Rx := rxLit "mkfs."

/-- Pattern 6: raw-device writes via dd. -/
def patDdOf : Rx :=
  .cat (rxLit "dd") (.cat rxSpaces1 (.cat rxDotStar (rxLit "of=")))

/-- Pattern 7: the shell fork bomb. -/
def patForkBomb : Rx :=
  .cat (rxLit ":()\x7b") (.cat rxSpaces0 (.cat (rxLit ":|:&")
    (.cat rxSpaces0 (rxLit "\x7d;:"))))

/-- Pattern 8. -/
def patChmod777 : Rx :=
  .cat (rxLit "chmod") (.cat rxSpaces1 (.cat (rxLit "777")
    (.cat rxSpaces1 (rxLit "/"))))

/-- Pattern 9: pipe-to-shell download via curl. -/
def patCurlPipeShell : Rx :=
  .cat (rxLit "curl") (.cat rxSpaces1 (.cat rxDotStar (.cat (rxLit "|")
    (.cat rxSpaces0 (.alt (rxLit "bash") (rxLit "sh"))))))

/-- Pattern 10: pipe-to-shell download via wget. -/
def patWgetPipeShell : Rx :=
  .cat (rxLit "wget") (.cat rxSpaces1 (.cat rxDotStar (.cat (rxLit "|")
    (.cat rxSpaces0 (.alt (rxLit "bash") (rxLit "sh"))))))

/-- Pattern 11: redirect onto the system disk. -/
def patDevSda : Rx := .cat (rxLit ">") (.cat rxSpaces0 (rxLit "/dev/sda"))

/-- Pattern 12. -/
def patMkswap : Rx := rxLit "mkswap"

/-- Pattern 13. -/
def patSwapon : Rx := rxLit "swapon"

/-- `dangerousPatterns` (local.go lines 17-31), in source order. -/
def dangerousPatterns : List Rx :=
  [patRmRf, patSudo, patShutdown, patReboot, patMkfs, patDdOf, patForkBomb,
   patChmod777, patCurlPipeShell, patWgetPipeShell, patDevSda, patMkswap,
   patSwapon]

/-- A command matches some dangerous pattern. -/
def isDangerousCmd (cmd : String) : Bool :=
  dangerousPatterns.any (fun p => rxMatchString p cmd)

/-- `sandbox.ExecResult`. -/
structure ExecResult where
  code : Int
  stdout : String
  stderr : String
deriving DecidableEq, Repr

/-- `truncate` (local.go lines 300-305). -/
def truncateCmd (s : String) (maxLen : Nat) : String :=
  if s.length ≤ maxLen then s else s.take maxLen ++ "..."

/-- `LocalSandbox.Exec` (local.go lines 124-187).  The actual process spawn is
effectful and is passed in as `run`; the security screen in front of it is the
translated code. -/
def localSandboxExec (run : String → ExecResult) (cmd : String) : ExecResult :=
  if isDangerousCmd cmd then
    { code := 1, stdout := ""
      stderr := "Dangerous command blocked for security: " ++ truncateCmd cmd 100 }
  else run cmd

/-- The `{ok, code, output}` mapping built by `BashRunTool.Execute`. -/
structure BashRunResponse where
  ok : Bool
  code : Int
  output : String
deriving DecidableEq, Repr

/-- `BashRunTool.Execute` on a sandbox exec result (the local sandbox returns
a nil Go error on every path, so only the non-error branch applies): merge
stdout and stderr, default to "(no output)", and set ok iff the exit code is
zero. -/
def bashRunResult (r : ExecResult) : BashRunResponse :=
  let output0 := r.stdout ++ (if r.stderr ≠ "" then "\n" ++ r.stderr else "")
  let output := if output0 = "" then "(no output)" else output0
  { ok := r.code == 0, code := r.code, output := output }

/-! ## Agent engine (pkg/agent/agent.go and the engine step/tool file)

The engine's effectful collaborators — the JSON library (`json.Unmarshal`),
the Tool Executor's actual execution, and the streaming provider — enter the
embedding as explicit parameters; the surrounding control flow is translated
statement by statement. -/

/-- Go `interface{}` values reachable from tool inputs and outputs (JSON). -/
inductive JValue
  | str (s : String)
  | num (n : Int)
  | bool (b : Bool)
  | null
  | arr (xs : List JValue)
  | obj (fields : List (String × JValue))
deriving Repr

/-- A Go `map[string]interface{}`. -/
abbrev JObject := List (String × JValue)

/-- `types.ContentBlock`: the closed set Text / ToolUse / ToolResult. -/
inductive CBlock
  | text (t : String)
  | toolUse (id name : String) (input : JObject)
  | toolResult (toolUseId : String) (content : JValue) (isError : Bool)
deriving Repr

/-- `types.ToolCallState`. -/
inductive ToolCallState
  | pending
  | approvalRequired
  | approved
  | executing
  | completed
  | failed
  | denied
  | sealed
deriving DecidableEq, Repr

/-- `types.ToolCallAuditEntry` (the timestamp is real time and is dropped). -/
structure ToolCallAuditEntry where
  state : ToolCallState
  note : String
deriving DecidableEq, Repr

/-- `types.ToolCallRecord`, keeping the fields the engine reads and writes
(timing fields are real time and are dropped). -/
structure ToolCallRecord where
  id : String
  name : String
  input : JObject
  state : ToolCallState
  result : Option JValue
  error : String
  isError : Bool
  auditTrail : List ToolCallAuditEntry
deriving Repr

/-- `tools.NewToolCallRecord(...).Build()` (executor.go lines 149-169):
state PENDING with a single "created" audit entry. -/
def newToolCallRecord (id name : String) (input : JObject) : ToolCallRecord :=
  { id := id
    name := name
    input := input
    state := .pending
    result := none
    error := ""
    isError := false
    auditTrail := [{ state := .pending, note := "created" }] }

/-- `Agent.updateToolRecord` (engine file lines 370-392): set the state, set
the error fields when a nonempty message is given, and append one audit entry
(whose `Note` field the source leaves empty). -/
def updateToolRecord (r : ToolCallRecord) (state : ToolCallState)
    (errorMsg : String) : ToolCallRecord :=
  let r1 := { r with state := state }
  let r2 :=
    if errorMsg ≠ "" then { r1 with error := errorMsg, isError := true }
    else r1
  { r2 with auditTrail := r2.auditTrail ++ [{ state := state, note := "" }] }

/-- `types.BreakpointState`. -/
inductive Breakpoint
  | ready
  | preModel
  | streamingModel
  | toolPending
  | awaitingApproval
  | preTool
  | toolExecuting
  | postTool
deriving DecidableEq, Repr

/-- The engine events relevant to the claims, with payload fields as in the
Go event structs. -/
inductive EngineEvent
  | progressToolStart (id name : String) (state : ToolCallState)
  | progressToolError (id name : String) (state : ToolCallState) (err : String)
  | progressToolEnd (id name : String) (state : ToolCallState)
  | progressTextChunkStart (step : Int)
  | progressTextChunk (step : Int) (delta : String)
  | progressTextChunkEnd (step : Int) (text : String)
  | monitorTokenUsage (inputTokens outputTokens totalTokens : Int)
  | monitorError (severity phase message : String)
deriving Repr

/-- Whether an event is a MonitorError. -/
def isMonitorErrorEvent : EngineEvent → Bool
  | .monitorError _ _ _ => true
  | _ => false

/-- The outcome the Tool Executor reports for one call
(`tools.ExecuteResult`, timing dropped): success flag, output and the error
text (`""` when the Go error is nil). -/
structure ExecOutcome where
  success : Bool
  output : JValue
  error : String
deriving Repr

/-- Everything observable about one `Agent.executeSingleTool` run. -/
structure ToolExecTrace where
  record : ToolCallRecord
  resultBlock : CBlock
  events : List EngineEvent
  breakpoints : List Breakpoint
  transitions : List (ToolCallState × ToolCallState)
  executorInvoked : Bool
deriving Repr

/-- `Agent.executeSingleTool` (engine file lines 238-353).  `toolFound` is
whether `tu.Name` is bound in `a.toolMap`; `exec` is the Tool Executor's
result for the call.  `transitions` instruments each `updateToolRecord` state
edge and `executorInvoked` whether `a.executor.Execute` was reached.  The
permission manager does not appear because the source function never consults
it: a found tool goes straight from PENDING to EXECUTING. -/
def executeSingleTool (toolFound : Bool) (exec : ExecOutcome)
    (tuId tuName : String) (input : JObject) : ToolExecTrace :=
  let record := newToolCallRecord tuId tuName input
  let ev0 := [EngineEvent.progressToolStart record.id record.name record.state]
  if toolFound = false then
    let errorMsg := "tool not found: " ++ tuName
    let record1 := updateToolRecord record .failed errorMsg
    { record := record1
      resultBlock := .toolResult tuId
        (.obj [("ok", .bool false), ("error", .str errorMsg)]) true
      events := ev0 ++ [.progressToolError tuId tuName .failed errorMsg]
      breakpoints := []
      transitions := [(record.state, .failed)]
      executorInvoked := false }
  else
    let record1 := updateToolRecord record .executing ""
    if exec.success then
      let record2 :=
        { updateToolRecord record1 .completed "" with result := some exec.output }
      { record := record2
        resultBlock := .toolResult tuId exec.output false
        events := ev0 ++ [.progressToolEnd tuId tuName record2.state]
        breakpoints := [.preTool, .toolExecuting, .postTool]
        transitions := [(record.state, .executing), (record1.state, .completed)]
        executorInvoked := true }
    else
      let record2 := updateToolRecord record1 .failed exec.error
      { record := record2
        resultBlock := .toolResult tuId
          (.obj [("ok", .bool false), ("error", .str exec.error)]) true
        events := ev0 ++ [.progressToolEnd tuId tuName record2.state]
        breakpoints := [.preTool, .toolExecuting, .postTool]
        transitions := [(record.state, .executing), (record1.state, .failed)]
        executorInvoked := true }

/-- Terminal tool-call states per the specification: COMPLETED, FAILED,
DENIED, SEALED. -/
def isTerminalState : ToolCallState → Bool
  | .completed | .failed | .denied | .sealed => true
  | _ => false

/-- The closed legal-edge set claimed by the specification (section 4.1):
PENDING→{APPROVAL_REQUIRED, APPROVED, FAILED, DENIED};
APPROVAL_REQUIRED→{APPROVED, DENIED, FAILED}; APPROVED→{EXECUTING, FAILED};
EXECUTING→{COMPLETED, FAILED}; any non-terminal→SEALED. -/
def claimLegalEdge : ToolCallState → ToolCallState → Bool
  | .pending, .approvalRequired | .pending, .approved => true
  | .pending, .failed | .pending, .denied => true
  | .approvalRequired, .approved | .approvalRequired, .denied => true
  | .approvalRequired, .failed => true
  | .approved, .executing | .approved, .failed => true
  | .executing, .completed | .executing, .failed => true
  | s, .sealed => !isTerminalState s
  | _, _ => false

/-- The edges the engine actually performs (read off the two branches of
`executeSingleTool` and the absence of any other `updateToolRecord` caller):
PENDING→{EXECUTING, FAILED} and EXECUTING→{COMPLETED, FAILED}. -/
def engineEdge : ToolCallState → ToolCallState → Bool
  | .pending, .executing | .pending, .failed => true
  | .executing, .completed | .executing, .failed => true
  | _, _ => false

/-! ### Streaming chunk assembly (`Agent.runModelStep`, engine file 59-199) -/

/-- Provider stream chunks.  `content_block_delta` and `content_block_stop`
carry an index on the wire, but the source reads only `currentBlockIndex`
(set by the last `content_block_start`) for them. -/
inductive StreamChunk
  | contentBlockStart (index : Nat) (blockType : String) (id name : String)
  | contentBlockDelta (index : Nat) (deltaType : String) (text partialJson : String)
  | contentBlockStop (index : Nat)
  | messageDelta (usage : Option (Int × Int))
deriving Repr

/-- Read a Go `map[int]string` with its zero-value default. -/
def bufGet (buf : List (Int × String)) (i : Int) : String :=
  match buf.lookup i with
  | some s => s
  | none => ""

/-- Write a Go `map[int]string` entry. -/
def bufSet (buf : List (Int × String)) (i : Int) (s : String) :
    List (Int × String) :=
  (i, s) :: buf.filter (fun p => p.1 ≠ i)

/-- The `for len(assistantContent) <= index` nil-padding loop. -/
def padTo (content : List (Option CBlock)) (i : Nat) : List (Option CBlock) :=
  content ++ List.replicate (i + 1 - content.length) none

/-- `assistantContent[i] = b` after padding. -/
def setSlot (content : List (Option CBlock)) (i : Nat) (b : CBlock) :
    List (Option CBlock) :=
  content.set i (some b)

/-- `assistantContent[i] = b` at a possibly negative current index. -/
def setSlotInt (content : List (Option CBlock)) (i : Int) (b : CBlock) :
    List (Option CBlock) :=
  if i < 0 then content else content.set i.toNat (some b)

/-- `assistantContent[i]` at a possibly negative current index (the Go code
panics on an out-of-range read; such reads only happen on malformed streams
and are modelled as absent slots). -/
def getSlotAt (content : List (Option CBlock)) (i : Int) : Option CBlock :=
  if i < 0 then none else (content.getD i.toNat none)

/-- The mutable state of the chunk-assembly loop in `runModelStep`. -/
structure AssemblyState where
  assistantContent : List (Option CBlock)
  currentBlockIndex : Int
  textBuffers : List (Int × String)
  inputJSONBuffers : List (Int × String)
  events : List EngineEvent
deriving Repr

/-- State at loop entry: empty content, `currentBlockIndex = -1`. -/
def initAssembly : AssemblyState :=
  { assistantContent := []
    currentBlockIndex := -1
    textBuffers := []
    inputJSONBuffers := []
    events := [] }

/-- One iteration of the chunk switch in `runModelStep` (engine file lines
91-170).  `parse` is `json.Unmarshal` into a `map[string]interface{}`,
returning `none` exactly when Go returns a non-nil error. -/
def processChunk (parse : String → Option JObject) (stepCount : Int)
    (st : AssemblyState) : StreamChunk → AssemblyState
  | .contentBlockStart index blockType id name =>
    let st := { st with currentBlockIndex := (index : Int) }
    if blockType = "text" then
      { st with
        events := st.events ++ [.progressTextChunkStart stepCount]
        assistantContent := setSlot (padTo st.assistantContent index) index (.text "")
        textBuffers := bufSet st.textBuffers index "" }
    else if blockType = "tool_use" then
      { st with
        assistantContent :=
          setSlot (padTo st.assistantContent index) index (.toolUse id name []) }
    else st
  | .contentBlockDelta _ deltaType text partialJson =>
    if deltaType = "text_delta" then
      let buf := bufGet st.textBuffers st.currentBlockIndex ++ text
      let st1 := { st with textBuffers := bufSet st.textBuffers st.currentBlockIndex buf }
      let st2 :=
        match getSlotAt st1.assistantContent st1.currentBlockIndex with
        | some (.text _) =>
          { st1 with assistantContent :=
              setSlotInt st1.assistantContent st1.currentBlockIndex (.text buf) }
        | _ => st1
      { st2 with events := st2.events ++ [.progressTextChunk stepCount text] }
    else if deltaType = "input_json_delta" then
      { st with inputJSONBuffers :=
          (bufSet st.inputJSONBuffers st.currentBlockIndex
            (bufGet st.inputJSONBuffers st.currentBlockIndex ++ partialJson)) }
    else st
  | .contentBlockStop _ =>
    match getSlotAt st.assistantContent st.currentBlockIndex with
    | some (.text t) =>
      { st with events := st.events ++ [.progressTextChunkEnd stepCount t] }
    | some (.toolUse id name _) =>
      let jsonStr := bufGet st.inputJSONBuffers st.currentBlockIndex
      if jsonStr ≠ "" then
        match parse jsonStr with
        | some newInput =>
          { st with assistantContent :=
              (setSlotInt st.assistantContent st.currentBlockIndex
                (.toolUse id name newInput)) }
        | none => st
      else st
    | _ => st
  | .messageDelta usage =>
    match usage with
    | some (inTok, outTok) =>
      { st with events := st.events ++ [.monitorTokenUsage inTok outTok (inTok + outTok)] }
    | none => st

/-- The whole chunk-assembly loop over a stream. -/
def runAssembly (parse : String → Option JObject) (stepCount : Int)
    (chunks : List StreamChunk) : AssemblyState :=
  chunks.foldl (processChunk parse stepCount) initAssembly

/-- A slot is either not a ToolUse or a ToolUse with empty input mapping. -/
def slotOk : Option CBlock → Bool
  | some (.toolUse _ _ input) => input.isEmpty
  | _ => true

/-- Every ToolUse slot in the assembled content has an empty input mapping. -/
def toolUseInputsEmpty (content : List (Option CBlock)) : Bool :=
  content.all slotOk

/-- No MonitorError among the emitted events. -/
def eventsOk (events : List EngineEvent) : Bool :=
  events.all (fun e => !isMonitorErrorEvent e)

/-! ### Step loop and step count (`Agent.Send`, `executeTools`) -/

/-- `types.MessageRole`. -/
inductive MsgRole
  | user
  | assistant
  | system
deriving DecidableEq, Repr

/-- `types.Message`. -/
structure EngineMessage where
  role : MsgRole
  content : List CBlock
deriving Repr

/-- The engine fields touched by the step-count claim. -/
structure EngineState where
  messages : List EngineMessage
  stepCount : Int
deriving Repr

/-- The ToolUse blocks of an assembled assistant content list, in order
(`runModelStep` lines 186-191). -/
def toolUsesOf (content : List CBlock) : List (String × String × JObject) :=
  content.filterMap (fun b =>
    match b with
    | .toolUse id name input => some (id, name, input)
    | _ => none)

/-- The step loop of `runModelStep` / `executeTools` at response granularity:
`responses` scripts the assembled assistant contents the provider produces,
`toolFound`/`exec` parameterize tool lookup and execution per tool name.
Each response is appended as an assistant message; if it carries ToolUse
blocks, each is run through `executeSingleTool`, the result blocks are
appended as one user message, `stepCount` is incremented, and the loop
re-enters (`executeTools` line 216 and tail call line 234). -/
def runStepLoop (toolFound : String → Bool) (exec : String → ExecOutcome) :
    List (List CBlock) → EngineState → EngineState
  | [], st => st
  | resp :: rest, st =>
    let st1 := { st with
      messages := st.messages ++ [{ role := .assistant, content := resp }] }
    let tus := toolUsesOf resp
    if tus.isEmpty then st1
    else
      let results := tus.map (fun tu =>
        (executeSingleTool (toolFound tu.2.1) (exec tu.2.1)
          tu.1 tu.2.1 tu.2.2).resultBlock)
      runStepLoop toolFound exec rest
        { messages := st1.messages ++ [{ role := .user, content := results }]
          stepCount := st1.stepCount + 1 }

/-- `Agent.Send` (agent.go lines 183-207) followed by the step loop it
schedules: append the user message, increment `stepCount` (agent.go line
196), then run the model-and-tools loop. -/
def sendModel (toolFound : String → Bool) (exec : String → ExecOutcome)
    (text : String) (responses : List (List CBlock)) (st : EngineState) :
    EngineState :=
  runStepLoop toolFound exec responses
    { messages := st.messages ++ [{ role := .user, content := [.text text] }]
      stepCount := st.stepCount + 1 }

/-- The number of completed model-then-tools rounds in a scripted run: a
response with ToolUse blocks completes a tool round and the loop continues;
the first response without them terminates the loop. -/
def completedToolRounds : List (List CBlock) → Nat
  | [] => 0
  | resp :: rest =>
    if (toolUsesOf resp).isEmpty then 0 else 1 + completedToolRounds rest

end AgentSDK

namespace AgentSDK

/-! ## Lemmas about set-style list operations -/

theorem mem_setInsert (l : List String) (x y : String) :
    y ∈ setInsert l x ↔ y = x ∨ y ∈ l := by
  unfold setInsert
  by_cases h : x ∈ l
  · have hc : l.contains x = true := by simpa using h
    rw [hc]
    simp only [if_true]
    exact ⟨Or.inr, fun hy => hy.elim (fun e => e ▸ h) id⟩
  · have hc : l.contains x = false := by simpa using h
    rw [hc]
    simp [List.mem_cons]

theorem mem_setRemove (l : List String) (x y : String) :
    y ∈ setRemove l x ↔ y ∈ l ∧ y ≠ x := by
  simp [setRemove, List.mem_filter]

theorem applyOp_atMostOne (pl : PermLists) (op : PermListOp) (n : String)
    (h : pl.AtMostOne n) : (pl.applyOp op).AtMostOne n := by
  obtain ⟨h1, h2, h3⟩ := h
  cases op with
  | addAllow m =>
    refine ⟨?_, ?_, ?_⟩ <;>
      simp only [PermLists.applyOp, mem_setInsert, mem_setRemove] <;>
      rintro ⟨ha, hb⟩ <;>
      first
        | exact hb.2 (by rcases ha with rfl | _ <;> tauto)
        | exact h3 ⟨ha.1, hb.1⟩
  | addDeny m =>
    refine ⟨?_, ?_, ?_⟩ <;>
      simp only [PermLists.applyOp, mem_setInsert, mem_setRemove] <;>
      rintro ⟨ha, hb⟩
    · exact ha.2 (by rcases hb with rfl | _ <;> tauto)
    · exact h2 ⟨ha.1, hb.1⟩
    · exact hb.2 (by rcases ha with rfl | _ <;> tauto)
  | addAsk m =>
    refine ⟨?_, ?_, ?_⟩ <;>
      simp only [PermLists.applyOp, mem_setInsert, mem_setRemove] <;>
      rintro ⟨ha, hb⟩
    · exact h1 ⟨ha.1, hb.1⟩
    · exact ha.2 (by rcases hb with rfl | _ <;> tauto)
    · exact ha.2 (by rcases hb with rfl | _ <;> tauto)
  | removeLists m =>
    refine ⟨?_, ?_, ?_⟩ <;>
      simp only [PermLists.applyOp, mem_setRemove] <;>
      rintro ⟨ha, hb⟩
    · exact h1 ⟨ha.1, hb.1⟩
    · exact h2 ⟨ha.1, hb.1⟩
    · exact h3 ⟨ha.1, hb.1⟩

theorem applyOps_atMostOne (ops : List PermListOp) (pl : PermLists) (n : String)
    (h : pl.AtMostOne n) : (pl.applyOps ops).AtMostOne n := by
  induction ops generalizing pl with
  | nil => exact h
  | cons op rest ih =>
    exact ih (pl.applyOp op) (applyOp_atMostOne pl op n h)

/-! ## Claim theorems -/

/-- Claim C3: for every tool call and every permission-manager configuration,
`Check` returns the decision of the first matching layer in the fixed order
deny-list, allow-list, ask-list, per-tool rule, default mode, with deny-list
membership yielding deny, allow-list allow, ask-list ask, a rule its stored
decision, and default modes allow/approval/auto yielding allow/ask/allow. -/
theorem check_first_match_order (pm : PermissionManager) (toolName : String) :
    (toolName ∈ pm.denyList →
        pm.check toolName = (.deny, "tool is in deny list")) ∧
    (toolName ∉ pm.denyList → toolName ∈ pm.allowList →
        pm.check toolName = (.allow, "tool is in allow list")) ∧
    (toolName ∉ pm.denyList → toolName ∉ pm.allowList →
      toolName ∈ pm.askList →
        pm.check toolName = (.ask, "tool requires approval")) ∧
    (∀ rule, toolName ∉ pm.denyList → toolName ∉ pm.allowList →
      toolName ∉ pm.askList →
      pm.rules.lookup toolName = some rule →
        pm.check toolName = (rule.decision, rule.reason)) ∧
    (toolName ∉ pm.denyList → toolName ∉ pm.allowList →
      toolName ∉ pm.askList →
      pm.rules.lookup toolName = none →
        ((pm.defaultMode = .modeAllow →
            pm.check toolName = (.allow, "default mode: allow")) ∧
         (pm.defaultMode = .modeApproval →
            pm.check toolName = (.ask, "default mode: approval")) ∧
         (pm.defaultMode = .modeAuto →
            pm.check toolName = (.allow, "default mode: auto (allow)")))) := by
  refine ⟨?_, ?_, ?_, ?_, ?_⟩
  · intro hd
    simp [PermissionManager.check, hd]
  · intro hd ha
    simp [PermissionManager.check, hd, ha]
  · intro hd ha hk
    simp [PermissionManager.check, hd, ha, hk]
  · intro rule hd ha hk hr
    simp [PermissionManager.check, hd, ha, hk, hr]
  · intro hd ha hk hr
    refine ⟨?_, ?_, ?_⟩ <;> intro hm <;>
      simp [PermissionManager.check, hd, ha, hk, hr, hm]

/-- Witness for C3: a concrete manager exercising the deny layer. -/
theorem check_first_match_order_witness :
    (PermissionManager.check
      ⟨.modeAuto, [], ["fs_read"], ["bash_run"], []⟩ "bash_run") =
      (.deny, "tool is in deny list") := by
  exact (check_first_match_order ⟨.modeAuto, [], ["fs_read"], ["bash_run"], []⟩
    "bash_run").1 (by decide)

/-- Claim C10: starting from a manager with empty lists, after any sequence of
AddToAllowList / AddToDenyList / AddToAskList / RemoveFromLists operations,
every tool name belongs to at most one of the allow, deny and ask lists. -/
theorem permLists_atMostOne (ops : List PermListOp) (n : String) :
    (PermLists.empty.applyOps ops).AtMostOne n := by
  refine applyOps_atMostOne ops PermLists.empty n ?_
  refine ⟨?_, ?_, ?_⟩ <;> rintro ⟨ha, _⟩ <;> simp [PermLists.empty] at ha

/-- Claim C9: `Pool.Create` errors and leaves the id-to-engine map unchanged on
a duplicate id or when the registered-agent count has reached `maxAgents`;
otherwise (engine construction succeeding) it inserts exactly one new entry
under the id. -/
theorem pool_create_spec {A : Type} (p : PoolModel A) (agentId : String)
    (mk : Except String A) :
    ((p.agents.lookup agentId).isSome = true →
        isErrorResult (p.create agentId mk).1 = true ∧
        (p.create agentId mk).2 = p) ∧
    ((p.agents.length : Int) ≥ p.maxAgents →
        isErrorResult (p.create agentId mk).1 = true ∧
        (p.create agentId mk).2 = p) ∧
    (∀ ag, (p.agents.lookup agentId).isSome = false →
      (p.agents.length : Int) < p.maxAgents →
      mk = .ok ag →
        (p.create agentId mk).1 = .ok ag ∧
        (p.create agentId mk).2.agents = (agentId, ag) :: p.agents) := by
  refine ⟨?_, ?_, ?_⟩
  · intro hdup
    simp [PoolModel.create, hdup, isErrorResult]
  · intro hfull
    by_cases hdup : (p.agents.lookup agentId).isSome
    · simp [PoolModel.create, hdup, isErrorResult]
    · simp [PoolModel.create, hdup, hfull, isErrorResult]
  · intro ag hdup hroom hmk
    have hge : ¬((p.agents.length : Int) ≥ p.maxAgents) := by omega
    simp [PoolModel.create, hdup, hge, hmk]

/-- Witness for C9: a pool of capacity 1 holding one agent rejects a duplicate
and rejects for capacity, and an empty pool of capacity 2 inserts. -/
theorem pool_create_spec_witness :
    (isErrorResult
        ((PoolModel.create ⟨[("a", 0)], 1⟩ "a" (.ok 7)).1 : Except String Nat) =
      true) ∧
    (isErrorResult
        ((PoolModel.create ⟨[("a", 0)], 1⟩ "b" (.ok 7)).1 : Except String Nat) =
      true) ∧
    ((PoolModel.create (⟨[], 2⟩ : PoolModel Nat) "c" (.ok 7)).2.agents =
      [("c", 7)]) := by
  refine ⟨?_, ?_, ?_⟩
  · exact ((pool_create_spec ⟨[("a", 0)], 1⟩ "a" (.ok 7)).1 (by decide)).1
  · exact ((pool_create_spec ⟨[("a", 0)], 1⟩ "b" (.ok 7)).2.1 (by decide)).1
  · exact ((pool_create_spec (⟨[], 2⟩ : PoolModel Nat) "c"
      (.ok 7)).2.2 7 (by decide) (by decide) rfl).2

/-! ## Room lemmas and claim C6 -/

theorem lookup_mem_pairs (l : List (String × String)) (k v : String)
    (h : l.lookup k = some v) : (k, v) ∈ l := by
  induction l with
  | nil => simp [List.lookup] at h
  | cons p rest ih =>
    obtain ⟨k0, v0⟩ := p
    by_cases hk : k = k0
    · subst hk
      simp [List.lookup] at h
      simp [h]
    · have hne : (k == k0) = false := by simp [hk]
      simp only [List.lookup, hne] at h
      exact List.mem_cons_of_mem _ (ih h)

theorem mentionTargets_map_fst (members : List (String × String))
    (ms : List String) :
    (ms.filterMap
        (fun m => (members.lookup m).map (fun aid => (m, aid)))).map Prod.fst =
      ms.filter (fun m => (members.lookup m).isSome) := by
  induction ms with
  | nil => rfl
  | cons m rest ih =>
    cases h : members.lookup m <;> simp [h, ih]

theorem deliveries_all_pool (targets : List (String × String))
    (poolHas : String → Bool) (ftext : String)
    (hp : ∀ p ∈ targets, poolHas p.2 = true) :
    targets.filterMap
        (fun p => if poolHas p.2 then some (p.1, ftext) else none) =
      targets.map (fun p => (p.1, ftext)) := by
  induction targets with
  | nil => rfl
  | cons p rest ih =>
    have hhead := hp p (by simp)
    simp [hhead, ih (fun q hq => hp q (by simp [hq]))]

theorem mem_dedupMentionsAux (l : List String) (seen : List String) (m : String)
    (hm : m ∈ dedupMentionsAux seen l) : m ∉ seen := by
  induction l generalizing seen with
  | nil => simp [dedupMentionsAux] at hm
  | cons x rest ih =>
    by_cases hx : seen.contains x
    · rw [dedupMentionsAux, if_pos hx] at hm
      exact ih seen hm
    · rw [dedupMentionsAux, if_neg hx] at hm
      rcases List.mem_cons.mp hm with rfl | hm2
      · intro hc
        exact hx (by simpa using hc)
      · intro hc
        exact ih (x :: seen) hm2 (List.mem_cons_of_mem _ hc)

theorem nodup_dedupMentionsAux (l : List String) (seen : List String) :
    (dedupMentionsAux seen l).Nodup := by
  induction l generalizing seen with
  | nil => simp [dedupMentionsAux]
  | cons x rest ih =>
    by_cases hx : seen.contains x
    · rw [dedupMentionsAux, if_pos hx]
      exact ih seen
    · rw [dedupMentionsAux, if_neg hx]
      refine List.nodup_cons.mpr ⟨?_, ih (x :: seen)⟩
      intro hmem
      exact mem_dedupMentionsAux rest (x :: seen) x hmem (by simp)

/-- Claim C6: for every room and member sender, `Say` with mentions delivers
exactly to the mentioned names intersected with current membership (duplicates
collapsed preserving first occurrence), with no mentions delivers exactly to
members minus the sender, and every delivered text carries the
`[from:<sender>] ` prefix. -/
theorem room_say_routing (r : RoomModel) (poolHas : String → Bool)
    (sender text : String)
    (hmem : (r.members.lookup sender).isSome = true)
    (hpool : ∀ p ∈ r.members, poolHas p.2 = true) :
    ∃ ds, r.say poolHas sender text = .ok ds ∧
      (extractMentions text ≠ [] →
        ds.map Prod.fst =
          (extractMentions text).filter
            (fun m => (r.members.lookup m).isSome)) ∧
      (extractMentions text = [] →
        ds.map Prod.fst =
          (r.members.filter (fun p => p.1 ≠ sender)).map Prod.fst) ∧
      (∀ d ∈ ds, d.2 = formatRoomText sender text) ∧
      (extractMentions text).Nodup := by
  have hmem' : ¬((r.members.lookup sender).isSome = false) := by
    simp [hmem]
  unfold RoomModel.say
  simp only [hmem', if_false]
  refine ⟨_, rfl, ?_, ?_, ?_, nodup_dedupMentionsAux _ _⟩
  · intro hne
    have hne' : (extractMentions text).isEmpty = false := by
      simpa [List.isEmpty_iff] using hne
    simp only [hne', if_true]
    rw [deliveries_all_pool, List.map_map]
    · simpa using mentionTargets_map_fst r.members (extractMentions text)
    · intro p hp
      obtain ⟨m, _, hlk⟩ := List.mem_filterMap.mp hp
      cases hlook : r.members.lookup m with
      | none => simp [hlook] at hlk
      | some aid =>
        simp only [hlook, Option.map_some] at hlk
        have hpm : (m, aid) ∈ r.members := lookup_mem_pairs _ _ _ hlook
        have := hpool _ hpm
        cases hlk
        simpa using this
  · intro heq
    have hne' : ¬((extractMentions text).isEmpty = false) := by
      simp [heq]
    simp only [hne', if_false]
    rw [deliveries_all_pool, List.map_map]
    · rfl
    · intro p hp
      exact hpool p (List.mem_of_mem_filter hp)
  · intro d hd
    rcases List.mem_filterMap.mp hd with ⟨p, _, hif⟩
    by_cases hph : poolHas p.2
    · simp only [hph, if_true] at hif
      cases hif
      rfl
    · simp [hph] at hif

/-- Witness for C6: the S6 scenario — room {alice, bob, carol}, alice says
"hi @bob", and exactly bob receives the prefixed text. -/
theorem room_say_routing_witness :
    ∃ ds, RoomModel.say ⟨[("alice", "A"), ("bob", "B"), ("carol", "C")]⟩
        (fun _ => true) "alice" "hi @bob" = .ok ds ∧
      ds.map Prod.fst = ["bob"] := by
  obtain ⟨ds, hds, hment, _, _, _⟩ :=
    room_say_routing ⟨[("alice", "A"), ("bob", "B"), ("carol", "C")]⟩
      (fun _ => true) "alice" "hi @bob" (by decide)
      (by intro p _; rfl)
  have hm : extractMentions "hi @bob" = ["bob"] := by
    simp [extractMentions, findMentionsAux, dedupMentionsAux, isWordChar]
  refine ⟨ds, hds, ?_⟩
  rw [hment (by rw [hm]; simp), hm]
  decide

/-! ## Scheduler lemmas and claim C7 -/

theorem stepsUpTo_succ (N : Nat) :
    stepsUpTo (N + 1) = stepsUpTo N ++ [(N : Int) + 1] := by
  simp [stepsUpTo, List.range_succ]

theorem runEverySteps_closed (m : Nat) (hm : 1 ≤ m) (N : Nat) :
    runEverySteps (m : Int) N =
      ({ every := (m : Int), lastTriggered := ((m * (N / m) : Nat) : Int) },
        N / m) := by
  induction N with
  | zero => simp [runEverySteps, stepsUpTo]
  | succ N ih =>
    unfold runEverySteps at ih ⊢
    rw [stepsUpTo_succ, List.foldl_append, ih]
    have hdm := Nat.div_add_mod N m
    have hrlt : N % m < m := Nat.mod_lt _ (by omega)
    set q := N / m with hq
    set r := N % m with hr
    simp only [List.foldl_cons, List.foldl_nil, notifyFold, stepTaskNotify]
    by_cases hfire : r + 1 = m
    · have hcond : ((N : Int) + 1 - ((m * q : Nat) : Int) ≥ (m : Int)) := by
        omega
      have hdiv : (N + 1) / m = q + 1 := by
        have hval : N + 1 = m * q + m := by omega
        rw [hval, Nat.add_div_right _ (by omega),
          Nat.mul_div_cancel_left _ (by omega)]
      have hmul : m * (q + 1) = m * q + m := by ring
      rw [if_pos hcond, hdiv, hmul]
      simp only [Prod.mk.injEq, StepTask.mk.injEq]
      refine ⟨⟨trivial, by omega⟩, by simp⟩
    · have hcond : ¬((N : Int) + 1 - ((m * q : Nat) : Int) ≥ (m : Int)) := by
        omega
      have hdiv : (N + 1) / m = q := by
        have hval : N + 1 = (r + 1) + m * q := by omega
        rw [hval, Nat.add_mul_div_left _ _ (by omega),
          Nat.div_eq_of_lt (by omega)]
        omega
      rw [if_neg hcond, hdiv]
      simp

theorem zipWith_tick (listeners : List Bool) (N : Nat) :
    List.zipWith (· + ·) (listeners.map (fun a => if a then N else 0))
      (listenerTick listeners) =
      listeners.map (fun a => if a then N + 1 else 0) := by
  induction listeners with
  | nil => rfl
  | cons a rest ih => cases a <;> simp [listenerTick, ih]

theorem listenerInvocations_closed (listeners : List Bool) (N : Nat) :
    listenerInvocationsAfter listeners N =
      listeners.map (fun a => if a then N else 0) := by
  induction N with
  | zero => simp [listenerInvocationsAfter, stepsUpTo]
  | succ N ih =>
    unfold listenerInvocationsAfter at ih ⊢
    rw [stepsUpTo_succ, List.foldl_append, ih]
    simp only [List.foldl_cons, List.foldl_nil]
    exact zipWith_tick listeners N

/-- Claim C7: for n ≥ 1 and sequential `NotifyStep(1..N)`, an `EverySteps(n)`
task's callback fires exactly ⌊N/n⌋ times, and every registered, uncancelled
`OnStep` listener is invoked exactly N times (cancelled ones zero times). -/
theorem scheduler_step_counts (n : Int) (N : Nat) (listeners : List Bool)
    (hn : 1 ≤ n) :
    everySteps n = .ok { every := n, lastTriggered := 0 } ∧
    (runEverySteps n N).2 = N / n.toNat ∧
    ∀ i : Nat, (listenerInvocationsAfter listeners N)[i]? =
      (listeners[i]?).map (fun a => if a then N else 0) := by
  have hcast : n = ((n.toNat : Nat) : Int) := by omega
  refine ⟨?_, ?_, ?_⟩
  · rw [everySteps, if_neg (by omega)]
  · conv_lhs => rw [hcast]
    rw [runEverySteps_closed n.toNat (by omega) N]
  · intro i
    rw [listenerInvocations_closed]
    simp [List.getElem?_map]

/-- Witness for C7: the S5 scenario — `every_steps(3)` with `notify_step(1..10)`
fires exactly 3 times; an active listener is invoked 10 times and a cancelled
one 0 times. -/
theorem scheduler_step_counts_witness :
    (runEverySteps 3 10).2 = 3 ∧
    (listenerInvocationsAfter [true, false] 10)[0]? = some 10 ∧
    (listenerInvocationsAfter [true, false] 10)[1]? = some 0 := by
  have h := scheduler_step_counts 3 10 [true, false] (by decide)
  refine ⟨?_, ?_, ?_⟩
  · rw [h.2.1]
    decide
  · rw [h.2.2 0]
    rfl
  · rw [h.2.2 1]
    rfl

/-! ## Claim C8: dangerous commands are blocked before execution -/

/-- Claim C8: every command matching one of the dangerous patterns is
short-circuited by the sandbox — for every possible underlying process
behaviour `run` the result is the fixed blocked-command `ExecResult` with
exit code 1 (so the command is never run), and `bash_run` consequently
reports ok = false with code = 1. -/
theorem bash_dangerous_blocked (run : String → ExecResult) (cmd : String)
    (hd : isDangerousCmd cmd = true) :
    localSandboxExec run cmd =
      { code := 1, stdout := ""
        stderr := "Dangerous command blocked for security: " ++
          truncateCmd cmd 100 } ∧
    (bashRunResult (localSandboxExec run cmd)).ok = false ∧
    (bashRunResult (localSandboxExec run cmd)).code = 1 := by
  refine ⟨?_, ?_, ?_⟩ <;> simp [localSandboxExec, hd, bashRunResult]

/-- Witness for C8: `"sudo rm -rf /"` is dangerous and blocked regardless of
the underlying runner. -/
theorem bash_dangerous_blocked_witness :
    isDangerousCmd "sudo rm -rf /" = true ∧
    (bashRunResult (localSandboxExec
        (fun _ => { code := 0, stdout := "ran", stderr := "" })
        "sudo rm -rf /")).ok = false ∧
    (bashRunResult (localSandboxExec
        (fun _ => { code := 0, stdout := "ran", stderr := "" })
        "sudo rm -rf /")).code = 1 := by
  have hd : isDangerousCmd "sudo rm -rf /" = true := by decide
  have h := bash_dangerous_blocked
    (fun _ => { code := 0, stdout := "ran", stderr := "" }) "sudo rm -rf /" hd
  exact ⟨hd, h.2.1, h.2.2⟩

/-! ## Engine lemmas and claims C1, C2, C4, C5 -/

theorem all_set {α : Type} (p : α → Bool) (l : List α) (i : Nat) (b : α)
    (hl : l.all p = true) (hb : p b = true) : (l.set i b).all p = true := by
  induction l generalizing i with
  | nil => simp
  | cons x rest ih =>
    cases i with
    | zero => simp_all
    | succ j =>
      simp only [List.set, List.all_cons, Bool.and_eq_true] at hl ⊢
      exact ⟨hl.1, ih j hl.2⟩

theorem toolUseInputsEmpty_padTo (content : List (Option CBlock)) (i : Nat)
    (h : toolUseInputsEmpty content = true) :
    toolUseInputsEmpty (padTo content i) = true := by
  unfold toolUseInputsEmpty padTo at *
  rw [List.all_append, h]
  simp [List.all_eq_true, List.mem_replicate, slotOk]

theorem toolUseInputsEmpty_setSlot (content : List (Option CBlock)) (i : Nat)
    (b : CBlock) (h : toolUseInputsEmpty content = true)
    (hb : slotOk (some b) = true) :
    toolUseInputsEmpty (setSlot content i b) = true :=
  all_set slotOk content i (some b) h hb

theorem toolUseInputsEmpty_setSlotInt (content : List (Option CBlock))
    (i : Int) (b : CBlock) (h : toolUseInputsEmpty content = true)
    (hb : slotOk (some b) = true) :
    toolUseInputsEmpty (setSlotInt content i b) = true := by
  unfold setSlotInt toolUseInputsEmpty at *
  by_cases hi : i < 0
  · rw [if_pos hi]
    exact h
  · rw [if_neg hi]
    exact all_set slotOk content i.toNat (some b) h hb

theorem processChunk_preserves (parse : String → Option JObject)
    (stepCount : Int) (st : AssemblyState) (c : StreamChunk)
    (hparse : ∀ s, parse s = none)
    (hc : toolUseInputsEmpty st.assistantContent = true)
    (he : eventsOk st.events = true) :
    toolUseInputsEmpty (processChunk parse stepCount st c).assistantContent
        = true ∧
    eventsOk (processChunk parse stepCount st c).events = true := by
  cases c with
  | contentBlockStart index blockType id name =>
    by_cases ht : blockType = "text"
    · refine ⟨?_, ?_⟩ <;>
        simp only [processChunk, ht, if_true, eventsOk, List.all_append,
          Bool.and_eq_true]
      · exact toolUseInputsEmpty_setSlot _ index (.text "")
          (toolUseInputsEmpty_padTo _ index hc) rfl
      · exact ⟨he, by simp [isMonitorErrorEvent]⟩
    · by_cases htu : blockType = "tool_use"
      · refine ⟨?_, ?_⟩ <;> simp only [processChunk, ht, htu, if_true, if_false]
        · exact toolUseInputsEmpty_setSlot _ index (.toolUse id name [])
            (toolUseInputsEmpty_padTo _ index hc) rfl
        · exact he
      · refine ⟨?_, ?_⟩ <;> simp only [processChunk, ht, htu, if_false] <;>
          assumption
  | contentBlockDelta index deltaType text partialJson =>
    by_cases ht : deltaType = "text_delta"
    · simp only [processChunk, ht, if_true]
      cases hslot : getSlotAt st.assistantContent st.currentBlockIndex with
      | none =>
        refine ⟨by simpa [hslot] using hc, ?_⟩
        simp only [hslot, eventsOk, List.all_append, Bool.and_eq_true]
        exact ⟨he, by simp [isMonitorErrorEvent]⟩
      | some blk =>
        cases blk with
        | text t =>
          refine ⟨?_, ?_⟩ <;>
            simp only [hslot, eventsOk, List.all_append, Bool.and_eq_true]
          · exact toolUseInputsEmpty_setSlotInt _ _ (.text _) hc rfl
          · exact ⟨he, by simp [isMonitorErrorEvent]⟩
        | toolUse tid tname tinput =>
          refine ⟨by simpa [hslot] using hc, ?_⟩
          simp only [hslot, eventsOk, List.all_append, Bool.and_eq_true]
          exact ⟨he, by simp [isMonitorErrorEvent]⟩
        | toolResult a b c2 =>
          refine ⟨by simpa [hslot] using hc, ?_⟩
          simp only [hslot, eventsOk, List.all_append, Bool.and_eq_true]
          exact ⟨he, by simp [isMonitorErrorEvent]⟩
    · by_cases hj : deltaType = "input_json_delta"
      · refine ⟨?_, ?_⟩ <;> simp only [processChunk, ht, hj, if_true, if_false] <;>
          assumption
      · refine ⟨?_, ?_⟩ <;> simp only [processChunk, ht, hj, if_false] <;>
          assumption
  | contentBlockStop index =>
    simp only [processChunk]
    cases hslot : getSlotAt st.assistantContent st.currentBlockIndex with
    | none => exact ⟨hc, he⟩
    | some blk =>
      cases blk with
      | text t =>
        refine ⟨hc, ?_⟩
        simp only [eventsOk, List.all_append, Bool.and_eq_true]
        exact ⟨he, by simp [isMonitorErrorEvent]⟩
      | toolUse tid tname tinput =>
        simp only [hparse, ite_self]
        exact ⟨hc, he⟩
      | toolResult a b c2 => exact ⟨hc, he⟩
  | messageDelta usage =>
    cases usage with
    | none => exact ⟨hc, he⟩
    | some u =>
      obtain ⟨inTok, outTok⟩ := u
      refine ⟨hc, ?_⟩
      simp only [processChunk, eventsOk, List.all_append, Bool.and_eq_true]
      exact ⟨he, by simp [isMonitorErrorEvent]⟩

theorem foldl_assembly_preserves (parse : String → Option JObject)
    (stepCount : Int) (chunks : List StreamChunk) (st : AssemblyState)
    (hparse : ∀ s, parse s = none)
    (hc : toolUseInputsEmpty st.assistantContent = true)
    (he : eventsOk st.events = true) :
    toolUseInputsEmpty
        ((chunks.foldl (processChunk parse stepCount) st).assistantContent)
      = true ∧
    eventsOk ((chunks.foldl (processChunk parse stepCount) st).events)
      = true := by
  induction chunks generalizing st with
  | nil => exact ⟨hc, he⟩
  | cons c rest ih =>
    obtain ⟨hc1, he1⟩ := processChunk_preserves parse stepCount st c hparse hc he
    exact ih (processChunk parse stepCount st c) hc1 he1

/-- Claim C4 (amended): during chunk assembly, when the buffered JSON of every
finalized ToolUse slot fails to parse, each such block keeps the empty input
mapping it was initialized with — but no MonitorError event is emitted: the
`json.Unmarshal` failure is silently discarded. -/
theorem toolUse_parse_failure_silent (parse : String → Option JObject)
    (stepCount : Int) (chunks : List StreamChunk)
    (hparse : ∀ s, parse s = none) :
    toolUseInputsEmpty (runAssembly parse stepCount chunks).assistantContent
        = true ∧
    eventsOk (runAssembly parse stepCount chunks).events = true :=
  foldl_assembly_preserves parse stepCount chunks initAssembly hparse rfl rfl

/-- Witness for C4 (amended): a concrete stream delivering unparseable JSON to
a ToolUse slot. -/
theorem toolUse_parse_failure_silent_witness :
    toolUseInputsEmpty (runAssembly (fun _ => none) 0
        [.contentBlockStart 0 "tool_use" "toolu_1" "bash_run",
         .contentBlockDelta 0 "input_json_delta" "" "not json",
         .contentBlockStop 0]).assistantContent = true ∧
    eventsOk (runAssembly (fun _ => none) 0
        [.contentBlockStart 0 "tool_use" "toolu_1" "bash_run",
         .contentBlockDelta 0 "input_json_delta" "" "not json",
         .contentBlockStop 0]).events = true :=
  toolUse_parse_failure_silent (fun _ => none) 0
    [.contentBlockStart 0 "tool_use" "toolu_1" "bash_run",
     .contentBlockDelta 0 "input_json_delta" "" "not json",
     .contentBlockStop 0] (fun _ => rfl)

/-- Counterexample to C4 as stated: a ToolUse slot is finalized with buffered
JSON that fails to parse; its input mapping is indeed empty, but the event
trace contains no MonitorError at all, contradicting the claimed
MonitorError(severity=warn) emission. -/
theorem toolUse_parse_failure_counterexample :
    (runAssembly (fun _ => none) 0
        [.contentBlockStart 0 "tool_use" "toolu_1" "bash_run",
         .contentBlockDelta 0 "input_json_delta" "" "not json",
         .contentBlockStop 0]).assistantContent =
      [some (.toolUse "toolu_1" "bash_run" [])] ∧
    ((runAssembly (fun _ => none) 0
        [.contentBlockStart 0 "tool_use" "toolu_1" "bash_run",
         .contentBlockDelta 0 "input_json_delta" "" "not json",
         .contentBlockStop 0]).events.any isMonitorErrorEvent) = false := by
  exact ⟨rfl, rfl⟩

/-- Claim C2 (amended): every state transition the engine performs on a
ToolCallRecord lies in the set {PENDING→EXECUTING, PENDING→FAILED,
EXECUTING→COMPLETED, EXECUTING→FAILED}; in particular no transition ever
leaves a terminal state.  Relative to the specification's closed set, the
only difference is that APPROVED is skipped: PENDING moves directly to
EXECUTING. -/
theorem tool_transitions_engine (toolFound : Bool) (exec : ExecOutcome)
    (tuId tuName : String) (input : JObject) :
    ∀ e ∈ (executeSingleTool toolFound exec tuId tuName input).transitions,
      engineEdge e.1 e.2 = true ∧ isTerminalState e.1 = false := by
  intro e he
  cases toolFound <;> cases hexec : exec.success <;>
    simp [executeSingleTool, newToolCallRecord, updateToolRecord, hexec] at he <;>
    rcases he with rfl | rfl <;> exact ⟨rfl, rfl⟩

/-- Witness for C2 (amended): the PENDING→EXECUTING edge occurs in a concrete
successful run and satisfies the amended edge set. -/
theorem tool_transitions_engine_witness :
    engineEdge .pending .executing = true ∧
    isTerminalState ToolCallState.pending = false :=
  tool_transitions_engine true ⟨true, .null, ""⟩ "toolu_9" "fs_read" []
    (.pending, .executing)
    (by simp [executeSingleTool, newToolCallRecord, updateToolRecord])

/-- Counterexample to C2 as stated: a successful run of a found tool performs
the transition PENDING→EXECUTING, an edge outside the claim's closed legal
set (the engine skips APPROVED). -/
theorem tool_transitions_claim_counterexample :
    (executeSingleTool true ⟨true, .null, ""⟩ "toolu_1" "fs_read"
        []).transitions =
      [(.pending, .executing), (.executing, .completed)] ∧
    claimLegalEdge .pending .executing = false := by
  exact ⟨rfl, rfl⟩

/-- Claim C1 (failing input): with bash_run on the deny list, the permission
manager's Check decides deny with exactly the claimed reason, yet the engine
— which never invokes the manager — drives that same call through the
executor to COMPLETED: executorInvoked is true, the final state is COMPLETED,
no transition enters DENIED, and the result block is the executor output
rather than the deny error. -/
theorem deny_list_not_enforced :
    PermissionManager.check ⟨.modeAuto, [], [], ["bash_run"], []⟩ "bash_run" =
      (.deny, "tool is in deny list") ∧
    (executeSingleTool true ⟨true, .obj [("ok", .bool true)], ""⟩
        "toolu_1" "bash_run" [("cmd", .str "ls")]).executorInvoked = true ∧
    (executeSingleTool true ⟨true, .obj [("ok", .bool true)], ""⟩
        "toolu_1" "bash_run" [("cmd", .str "ls")]).record.state = .completed ∧
    ((executeSingleTool true ⟨true, .obj [("ok", .bool true)], ""⟩
        "toolu_1" "bash_run" [("cmd", .str "ls")]).transitions.all
      (fun e => e.2 != ToolCallState.denied)) = true := by
  exact ⟨rfl, rfl, rfl, rfl⟩

theorem runStepLoop_stepCount (toolFound : String → Bool)
    (exec : String → ExecOutcome) (responses : List (List CBlock))
    (st : EngineState) :
    (runStepLoop toolFound exec responses st).stepCount =
      st.stepCount + completedToolRounds responses := by
  induction responses generalizing st with
  | nil => simp [runStepLoop, completedToolRounds]
  | cons resp rest ih =>
    by_cases h : (toolUsesOf resp).isEmpty
    · simp [runStepLoop, completedToolRounds, h]
    · simp only [runStepLoop, completedToolRounds, h, if_false, Bool.false_eq_true]
      rw [ih]
      push_cast
      ring

/-- Claim C5 (amended): after a send whose step loop completes k tool rounds,
the step count has grown by exactly k + 1 — `Send` itself increments it once
(agent.go line 196) and `executeTools` once per completed round. -/
theorem send_step_count (toolFound : String → Bool)
    (exec : String → ExecOutcome) (text : String)
    (responses : List (List CBlock)) (st : EngineState) :
    (sendModel toolFound exec text responses st).stepCount =
      st.stepCount + 1 + completedToolRounds responses := by
  unfold sendModel
  rw [runStepLoop_stepCount]

/-- Counterexample to C5 as stated: a send whose single completion carries no
ToolUse blocks completes k = 0 tool rounds, yet the step count grows from 0
to 1 because `Send` itself increments it. -/
theorem send_step_count_counterexample :
    completedToolRounds [[CBlock.text "hi"]] = 0 ∧
    (sendModel (fun _ => true) (fun _ => ⟨true, .null, ""⟩) "hello"
        [[CBlock.text "hi"]] ⟨[], 0⟩).stepCount = 1 := by
  exact ⟨rfl, rfl⟩

end AgentSDK
